import Mathlib

/-!
Verification of the `dan` VS Code extension's process-output decoder and
progress engine (`src/dan/run.ts`, current revision).

Strings are modelled as `List Char`.  JavaScript's `String.prototype.trim`
and the regex class `\s` are modelled over their ASCII subset
(space, tab, LF, CR, VT, FF); the source only ever meets ASCII output.
-/

/-- JavaScript whitespace (ASCII subset), used by `trim` and the regex class
backslash-s. -/
def isJsWs (c : Char) : Bool :=
  c = ' ' || c = '\t' || c = '\n' || c = '\r' || c = '\x0b' || c = '\x0c'

/-- Model of `String.prototype.trim`: drop whitespace at both ends. -/
def trimChars (l : List Char) : List Char :=
  ((l.dropWhile isJsWs).reverse.dropWhile isJsWs).reverse

/-- Prepend a character to the first segment of a segment list (helper for
`splitLines`). -/
def headCons (c : Char) : List (List Char) → List (List Char)
  | [] => [[c]]
  | l :: ls => (c :: l) :: ls

/-- Model of `data.toString().split(/\r?\n|\r/)` from `processBuffer`
(src/dan/run.ts:143): split on CRLF, LF or bare CR, keeping empty segments
exactly as JavaScript `split` does. -/
def splitLines : List Char → List (List Char)
  | [] => [[]]
  | c :: t =>
    if c = '\n' then [] :: splitLines t
    else if c = '\r' then
      match t with
      | [] => [[], []]
      | c2 :: t2 => if c2 = '\n' then [] :: splitLines t2 else [] :: splitLines (c2 :: t2)
    else headCons c (splitLines t)

/-- The per-segment step of `processBuffer`: trim, keep only nonempty lines
(src/dan/run.ts:144-147). -/
def trimFilter (l : List Char) : Option (List Char) :=
  let t := trimChars l
  if t.length > 0 then some t else none

/-- Model of `processBuffer` applied to one chunk: the ordered list of line
events it emits (src/dan/run.ts:142-149).  The `isError` tag merely rides
along to the callback and does not affect which lines are emitted, so it is
omitted. -/
def processBufferLines (data : List Char) : List (List Char) :=
  (splitLines data).filterMap trimFilter

/-- Feeding a sequence of chunks through `processBuffer` one chunk at a time,
as the stdout/stderr `data` handlers do (src/dan/run.ts:158-161). -/
def processChunks (chunks : List (List Char)) : List (List Char) :=
  chunks.flatMap processBufferLines

/-- Concatenation of newline-terminated lines. -/
def joinNL (ls : List (List Char)) : List Char :=
  (ls.map (fun l => l ++ ['\n'])).flatten

theorem headCons_ne_nil (c : Char) (L : List (List Char)) : headCons c L ≠ [] := by
  cases L <;> simp [headCons]

theorem splitLines_nil : splitLines [] = [[]] := rfl

theorem splitLines_cons_nl (t : List Char) :
    splitLines ('\n' :: t) = [] :: splitLines t := by
  rw [splitLines.eq_def]; rfl

theorem splitLines_cons_crlf (t : List Char) :
    splitLines ('\r' :: '\n' :: t) = [] :: splitLines t := by
  rw [splitLines.eq_def]; rfl

theorem splitLines_cons_cr (c2 : Char) (t2 : List Char) (h : c2 ≠ '\n') :
    splitLines ('\r' :: c2 :: t2) = [] :: splitLines (c2 :: t2) := by
  rw [splitLines.eq_def]; simp [h]

theorem splitLines_cons_other (c : Char) (t : List Char) (h1 : c ≠ '\n') (h2 : c ≠ '\r') :
    splitLines (c :: t) = headCons c (splitLines t) := by
  rw [splitLines.eq_def]; simp [h1, h2]

theorem splitLines_ne_nil : ∀ l : List Char, splitLines l ≠ []
  | [] => by simp [splitLines_nil]
  | c :: t => by
    by_cases h1 : c = '\n'
    · subst h1; simp [splitLines_cons_nl]
    · by_cases h2 : c = '\r'
      · subst h2
        cases t with
        | nil => rw [splitLines.eq_def]; simp
        | cons c2 t2 =>
          by_cases h3 : c2 = '\n'
          · subst h3; simp [splitLines_cons_crlf]
          · simp [splitLines_cons_cr c2 t2 h3]
      · simpa [splitLines_cons_other c t h1 h2] using headCons_ne_nil c (splitLines t)

theorem splitLines_nl_pair : ∀ x : List Char,
    ∃ d D, splitLines (x ++ ['\n']) = d :: D ∧ D ≠ []
  | [] => ⟨[], [[]], by simp [splitLines_cons_nl, splitLines_nil], by simp⟩
  | [c] => by
    by_cases h1 : c = '\n'
    · subst h1
      exact ⟨[], [[], []], by simp [splitLines_cons_nl, splitLines_nil], by simp⟩
    · by_cases h2 : c = '\r'
      · subst h2
        exact ⟨[], [[]], by simp [splitLines_cons_crlf, splitLines_nil], by simp⟩
      · refine ⟨[c], [[]], ?_, by simp⟩
        simp [splitLines_cons_other c _ h1 h2, splitLines_cons_nl, splitLines_nil, headCons]
  | c1 :: c2 :: x' => by
    by_cases h1 : c1 = '\n'
    · subst h1
      refine ⟨[], splitLines ((c2 :: x') ++ ['\n']), by simp [splitLines_cons_nl], ?_⟩
      exact splitLines_ne_nil _
    · by_cases h2 : c1 = '\r'
      · subst h2
        by_cases h3 : c2 = '\n'
        · subst h3
          refine ⟨[], splitLines (x' ++ ['\n']), by simp [splitLines_cons_crlf], ?_⟩
          exact splitLines_ne_nil _
        · refine ⟨[], splitLines (c2 :: (x' ++ ['\n'])), ?_, splitLines_ne_nil _⟩
          simp [splitLines_cons_cr c2 _ h3]
      · obtain ⟨d, D, hD, hDne⟩ := splitLines_nl_pair (c2 :: x')
        refine ⟨c1 :: d, D, ?_, hDne⟩
        simp only [List.cons_append] at hD ⊢
        rw [splitLines_cons_other c1 _ h1 h2, hD, headCons]

theorem splitLines_append : ∀ a b : List Char,
    splitLines (a ++ '\n' :: b) = (splitLines (a ++ ['\n'])).dropLast ++ splitLines b
  | [], b => by
    simp [splitLines_cons_nl, splitLines_nil]
  | [c], b => by
    by_cases h1 : c = '\n'
    · subst h1
      simp [splitLines_cons_nl, splitLines_nil]
    · by_cases h2 : c = '\r'
      · subst h2
        simp [splitLines_cons_crlf, splitLines_nil, splitLines_cons_nl,
          splitLines_ne_nil b]
      · simp only [List.cons_append, List.nil_append,
          splitLines_cons_other c _ h1 h2, splitLines_cons_nl, splitLines_nil]
        cases hb : splitLines b with
        | nil => exact absurd hb (splitLines_ne_nil b)
        | cons s S => simp [headCons]
  | c1 :: c2 :: a', b => by
    by_cases h1 : c1 = '\n'
    · subst h1
      have ih := splitLines_append (c2 :: a') b
      obtain ⟨d, D, hD, hDne⟩ := splitLines_nl_pair (c2 :: a')
      cases D with
      | nil => exact absurd rfl hDne
      | cons d2 D2 =>
        simp only [List.cons_append] at ih hD ⊢
        rw [splitLines_cons_nl, splitLines_cons_nl, ih, hD]
        simp
    · by_cases h2 : c1 = '\r'
      · subst h2
        by_cases h3 : c2 = '\n'
        · subst h3
          have ih := splitLines_append a' b
          obtain ⟨d, D, hD, hDne⟩ := splitLines_nl_pair a'
          cases D with
          | nil => exact absurd rfl hDne
          | cons d2 D2 =>
            simp only [List.cons_append] at ih hD ⊢
            rw [splitLines_cons_crlf, splitLines_cons_crlf, ih, hD]
            simp
        · have ih := splitLines_append (c2 :: a') b
          obtain ⟨d, D, hD, hDne⟩ := splitLines_nl_pair (c2 :: a')
          cases D with
          | nil => exact absurd rfl hDne
          | cons d2 D2 =>
            simp only [List.cons_append] at ih hD ⊢
            rw [splitLines_cons_cr c2 _ h3, splitLines_cons_cr c2 _ h3, ih, hD]
            simp
      · have ih := splitLines_append (c2 :: a') b
        obtain ⟨d, D, hD, hDne⟩ := splitLines_nl_pair (c2 :: a')
        cases D with
        | nil => exact absurd rfl hDne
        | cons d2 D2 =>
          simp only [List.cons_append] at ih hD ⊢
          rw [splitLines_cons_other c1 _ h1 h2, splitLines_cons_other c1 _ h1 h2, ih, hD]
          simp [headCons]

theorem splitLines_noDelim : ∀ l : List Char, (∀ c ∈ l, c ≠ '\n' ∧ c ≠ '\r') →
    splitLines (l ++ ['\n']) = [l, []]
  | [], _ => by simp [splitLines_cons_nl, splitLines_nil]
  | c :: t, h => by
    have hc := h c (by simp)
    have ht : ∀ c2 ∈ t, c2 ≠ '\n' ∧ c2 ≠ '\r' := fun c2 hm => h c2 (by simp [hm])
    simp only [List.cons_append]
    rw [splitLines_cons_other c _ hc.1 hc.2, splitLines_noDelim t ht, headCons]

theorem trimFilter_nil : trimFilter [] = none := rfl

theorem processBufferLines_append (a b : List Char) :
    processBufferLines (a ++ '\n' :: b) = processBufferLines (a ++ ['\n']) ++ processBufferLines b := by
  have h1 := splitLines_append a b
  have h2 := splitLines_append a []
  simp only [List.append_nil] at h2
  unfold processBufferLines
  rw [h1, List.filterMap_append]
  conv_rhs => rw [h2, List.filterMap_append]
  simp [splitLines_nil, trimFilter_nil]

theorem processBufferLines_joinNL : ∀ ch : List (List Char),
    (∀ l ∈ ch, (∀ c ∈ l, c ≠ '\n' ∧ c ≠ '\r') ∧ trimChars l ≠ []) →
    processBufferLines (joinNL ch) = ch.map trimChars
  | [], _ => by simp [joinNL, processBufferLines, splitLines_nil, trimFilter_nil]
  | l :: ls, h => by
    have hl := h l (by simp)
    have hls : ∀ l2 ∈ ls, (∀ c ∈ l2, c ≠ '\n' ∧ c ≠ '\r') ∧ trimChars l2 ≠ [] :=
      fun l2 hm => h l2 (by simp [hm])
    have hjoin : joinNL (l :: ls) = l ++ '\n' :: joinNL ls := by
      simp [joinNL]
    rw [hjoin, processBufferLines_append, processBufferLines_joinNL ls hls]
    have hsp : processBufferLines (l ++ ['\n']) = [trimChars l] := by
      unfold processBufferLines
      rw [splitLines_noDelim l hl.1]
      have : trimFilter l = some (trimChars l) := by
        unfold trimFilter
        simp only [List.length_pos]
        rw [if_pos hl.2]
      simp [this, trimFilter_nil]
    rw [hsp]
    simp

/-- C2 counterexample: the chunks `"ab"` and `"c\n"` concatenate to the single
newline-terminated line `"abc"` (N = 1), yet per-chunk processing emits two
line events (`"ab"` then `"c"`), because `processBuffer` does not buffer a
partial trailing fragment across chunk boundaries. -/
theorem c2_counterexample :
    "ab".toList ++ "c\n".toList = joinNL ["abc".toList] ∧
    processChunks ["ab".toList, "c\n".toList] = ["ab".toList, "c".toList] ∧
    (processChunks ["ab".toList, "c\n".toList]).length = 2 ∧
    ["abc".toList].length = 1 := by
  refine ⟨rfl, rfl, rfl, rfl⟩

/-- C2 (amended): when every chunk boundary falls at a line boundary (each
chunk is a concatenation of whole newline-terminated lines, each line free of
CR/LF and nonempty after trimming), `processBuffer` applied per chunk emits
exactly the N trimmed lines, in order — one event per line of the
concatenation. -/
theorem c2_amended : ∀ chunks : List (List (List Char)),
    (∀ ch ∈ chunks, ∀ l ∈ ch, (∀ c ∈ l, c ≠ '\n' ∧ c ≠ '\r') ∧ trimChars l ≠ []) →
    processChunks (chunks.map joinNL) = chunks.flatten.map trimChars ∧
    (processChunks (chunks.map joinNL)).length = chunks.flatten.length
  | [], _ => by simp [processChunks]
  | ch :: rest, h => by
    have hch := h ch (by simp)
    have hrest : ∀ ch2 ∈ rest, ∀ l ∈ ch2, (∀ c ∈ l, c ≠ '\n' ∧ c ≠ '\r') ∧ trimChars l ≠ [] :=
      fun ch2 hm => h ch2 (by simp [hm])
    obtain ⟨ihEq, _⟩ := c2_amended rest hrest
    have hhead := processBufferLines_joinNL ch hch
    have hEq : processChunks ((ch :: rest).map joinNL) = (ch :: rest).flatten.map trimChars := by
      simp only [List.map_cons, processChunks, List.flatMap_cons, List.flatten_cons,
        List.map_append]
      rw [hhead]
      simpa [processChunks] using ihEq
    exact ⟨hEq, by rw [hEq, List.length_map]⟩

/-- C2 amended-claim witness at a concrete chunk sequence: two chunks holding
one and two whole lines respectively produce exactly the three trimmed lines
in order. -/
theorem c2_amended_witness :
    processChunks ([["ab".toList], ["cd".toList, "ef".toList]].map joinNL) =
      ([["ab".toList], ["cd".toList, "ef".toList]] : List (List (List Char))).flatten.map trimChars ∧
    (processChunks ([["ab".toList], ["cd".toList, "ef".toList]].map joinNL)).length =
      ([["ab".toList], ["cd".toList, "ef".toList]] : List (List (List Char))).flatten.length :=
  c2_amended [["ab".toList], ["cd".toList, "ef".toList]] (by decide)

/-!
A small backtracking regular-expression engine, sufficient for the three
regexes of `run.ts` (`LogStream._expr`, `LogStream._sequenceExpr`, the
`barExpr` of `channelExec`, and the `DIAGNOSTICS` marker of
`handleDiagnostics`).  Every repetition in those patterns is over a single
character class, so the engine only needs: literals, character classes,
greedy/lazy class repetition, capture groups, a greedy optional
non-capturing group, and the end anchor.  `reExec` implements
`RegExp.prototype.exec`: leftmost starting position first, and at a given
position the usual greedy/lazy backtracking order.
-/

inductive RE where
  | lit : Char → RE
  | cls : (Char → Bool) → RE
  | rep : (Char → Bool) → Bool → Bool → RE
  | grp : Nat → List RE → RE
  | opt : List RE → RE
  | eos : RE

/-- Captured groups: group index paired with captured characters. -/
abbrev Caps := List (Nat × List Char)

/-- Backtracking matcher in continuation-passing style.  `fuel` only bounds
the nesting depth (one unit per atom entered), never the search breadth, so
any fuel larger than the pattern's atom count is enough; callers pass
`s.length + 100`, far above the largest pattern here. -/
def reMatch : Nat → List RE → List Char → Caps → (List Char → Caps → Option Caps) → Option Caps
  | 0, _, _, _, _ => none
  | _ + 1, [], s, caps, k => k s caps
  | fuel + 1, re :: res, s, caps, k =>
    match re with
    | .lit c =>
      match s with
      | c2 :: s2 => if c2 = c then reMatch fuel res s2 caps k else none
      | [] => none
    | .cls p =>
      match s with
      | c2 :: s2 => if p c2 then reMatch fuel res s2 caps k else none
      | [] => none
    | .rep p one greedy =>
      let m := (s.takeWhile p).length
      let lo := if one then 1 else 0
      let counts := (List.range (m + 1)).filter (fun n => decide (lo ≤ n))
      let counts := if greedy then counts.reverse else counts
      counts.findSome? (fun n => reMatch fuel res (s.drop n) caps k)
    | .grp i body =>
      reMatch fuel body s caps (fun s2 caps2 =>
        reMatch fuel res s2 ((i, s.take (s.length - s2.length)) :: caps2) k)
    | .opt body =>
      match reMatch fuel body s caps (fun s2 caps2 => reMatch fuel res s2 caps2 k) with
      | some r => some r
      | none => reMatch fuel res s caps k
    | .eos =>
      match s with
      | [] => reMatch fuel res [] caps k
      | _ :: _ => none

/-- Try a match starting exactly at the head of `s`. -/
def reTryAt (res : List RE) (s : List Char) : Option Caps :=
  reMatch (s.length + 100) res s [] (fun _ caps => some caps)

/-- Model of `RegExp.prototype.exec`: try each start position from the left;
`none` models a `null` result. -/
def reExec (res : List RE) : List Char → Option Caps
  | [] => reTryAt res []
  | c :: rest =>
    match reTryAt res (c :: rest) with
    | some caps => some caps
    | none => reExec res rest

/-- Captured text of group `i` (empty if the group did not participate),
modelling JavaScript's `m[i]` coerced through template-string interpolation. -/
def capGet (caps : Caps) (i : Nat) : List Char :=
  (caps.lookup i).getD []

/-- Whether group `i` participated in the match, modelling the truthiness
test `if (barmatch[3])` (a `\d+?` capture is never the empty string). -/
def capHas (caps : Caps) (i : Nat) : Option (List Char) :=
  caps.lookup i

/-- JavaScript regex class `\d`. -/
def isDigitCh (c : Char) : Bool := c.isDigit

/-- JavaScript regex class `\w`. -/
def isWordCh (c : Char) : Bool := c.isAlphanum || c = '_'

/-- Character class `[\d:.]` of `LogStream._expr`. -/
def isTsCh (c : Char) : Bool := c.isDigit || c = ':' || c = '.'

/-- JavaScript `.` (anything but a line terminator; ASCII model). -/
def isDotCh (c : Char) : Bool := c ≠ '\n' && c ≠ '\r'

/-- `LogStream._expr` (src/dan/run.ts:224), the structured-log grammar
regex. -/
def logExpr : List RE :=
  [.lit '[', .grp 1 [.rep isTsCh true true], .lit ']',
   .lit '[', .grp 2 [.rep isWordCh true true], .lit ']',
   .rep isJsWs false true,
   .grp 3 [.rep isDotCh true false], .lit ':',
   .rep isJsWs false true,
   .grp 4 [.rep isDotCh true true]]

/-- `LogStream._sequenceExpr` (src/dan/run.ts:225): an ESC `[` control
sequence introducer followed by any character. -/
def seqExpr : List RE :=
  [.lit '\x1b', .lit '[', .cls isDotCh]

/-- The tqdm-style progress-bar regex `barExpr` of `channelExec`
(src/dan/run.ts:345). -/
def barExpr : List RE :=
  [.grp 1 [.rep isDigitCh true true], .lit '-',
   .grp 2 [.rep isDotCh true true], .lit ':',
   .rep isJsWs true true,
   .opt [.grp 3 [.rep isDigitCh true false], .lit '%', .lit '|',
         .rep isDotCh true false, .lit '|'],
   .rep isJsWs false true,
   .grp 4 [.rep isDotCh true false], .cls isJsWs,
   .lit '[', .grp 5 [.rep isDotCh true false], .lit ']']

/-- The `DIAGNOSTICS` marker regex of `handleDiagnostics`
(src/dan/run.ts:210). -/
def diagExpr : List RE :=
  ("DIAGNOSTICS: ".toList.map RE.lit) ++ [.grp 1 [.rep isDotCh true true], .eos]

/-!
JSON values and a validity-faithful model of `JSON.parse`, needed because
`handleDiagnostics` calls `JSON.parse` on the `DIAGNOSTICS` payload.  `lbrace`
and `rbrace` name the two brace characters.
-/

def lbrace : Char := Char.ofNat 123

def rbrace : Char := Char.ofNat 125

inductive Json where
  | null : Json
  | bool : Bool → Json
  | num : List Char → Json
  | str : List Char → Json
  | arr : List Json → Json
  | obj : List (List Char × Json) → Json

/-- JSON insignificant whitespace. -/
def isJsonWs (c : Char) : Bool := c = ' ' || c = '\t' || c = '\n' || c = '\r'

def isHexCh (c : Char) : Bool :=
  c.isDigit || ('a' ≤ c && c ≤ 'f') || ('A' ≤ c && c ≤ 'F')

/-- Parse the remainder of a JSON string after the opening quote; yields the
raw content and the input following the closing quote. -/
def jsonStringRest : Nat → List Char → Option (List Char × List Char)
  | 0, _ => none
  | fuel + 1, s =>
    match s with
    | [] => none
    | '"' :: r => some ([], r)
    | '\\' :: r =>
      match r with
      | [] => none
      | c :: r2 =>
        if c = '"' || c = '\\' || c = '/' || c = 'b' || c = 'f' || c = 'n' || c = 'r' || c = 't' then
          (jsonStringRest fuel r2).map (fun p => (c :: p.1, p.2))
        else if c = 'u' then
          match r2 with
          | a :: b :: c2 :: d :: r3 =>
            if isHexCh a && isHexCh b && isHexCh c2 && isHexCh d then
              (jsonStringRest fuel r3).map (fun p => (c :: p.1, p.2))
            else none
          | _ => none
        else none
    | c :: r => if 32 ≤ c.toNat then (jsonStringRest fuel r).map (fun p => (c :: p.1, p.2)) else none

/-- Fraction and exponent tail of a JSON number. -/
def jsonNumTail (pre : List Char) (s : List Char) : Option (List Char × List Char) :=
  let (frac, s1) :=
    match s with
    | '.' :: r =>
      let ds := r.takeWhile Char.isDigit
      if ds.isEmpty then ([], s) else ('.' :: ds, r.drop ds.length)
    | _ => ([], s)
  if frac.isEmpty && (match s with | '.' :: _ => true | _ => false) then none
  else
    match s1 with
    | c :: r =>
      if c = 'e' || c = 'E' then
        let (sgn, r2) := match r with
          | '+' :: r2 => (['+'], r2)
          | '-' :: r2 => (['-'], r2)
          | _ => ([], r)
        let ds := r2.takeWhile Char.isDigit
        if ds.isEmpty then none
        else some (pre ++ frac ++ c :: sgn ++ ds, r2.drop ds.length)
      else some (pre ++ frac, s1)
    | [] => some (pre ++ frac, s1)

/-- Leading part of a JSON number: `-? (0 | [1-9][0-9]*)` then tail. -/
def jsonNumberParse (s : List Char) : Option (List Char × List Char) :=
  let (neg, s1) := match s with | '-' :: r => (['-'], r) | _ => (([] : List Char), s)
  match s1 with
  | [] => none
  | c :: r =>
    if c = '0' then jsonNumTail (neg ++ ['0']) r
    else if c.isDigit then
      let ds := r.takeWhile Char.isDigit
      jsonNumTail (neg ++ c :: ds) (r.drop ds.length)
    else none

mutual

/-- Model of `JSON.parse` value grammar, fuelled; consumes leading
whitespace. -/
def jsonValue : Nat → List Char → Option (Json × List Char)
  | 0, _ => none
  | fuel + 1, s =>
    match s.dropWhile isJsonWs with
    | [] => none
    | c :: r =>
      if c = 'n' then
        match r with
        | 'u' :: 'l' :: 'l' :: r2 => some (.null, r2)
        | _ => none
      else if c = 't' then
        match r with
        | 'r' :: 'u' :: 'e' :: r2 => some (.bool true, r2)
        | _ => none
      else if c = 'f' then
        match r with
        | 'a' :: 'l' :: 's' :: 'e' :: r2 => some (.bool false, r2)
        | _ => none
      else if c = '"' then
        (jsonStringRest (r.length + 1) r).map (fun p => (Json.str p.1, p.2))
      else if c = lbrace then jsonObjRest fuel [] r
      else if c = '[' then jsonArrRest fuel [] r
      else if c = '-' || c.isDigit then
        (jsonNumberParse (c :: r)).map (fun p => (Json.num p.1, p.2))
      else none

/-- Members of an object after the opening brace (or after a comma);
an immediate closing brace is only legal while no member has been read. -/
def jsonObjRest : Nat → List (List Char × Json) → List Char → Option (Json × List Char)
  | 0, _, _ => none
  | fuel + 1, acc, s =>
    match s.dropWhile isJsonWs with
    | [] => none
    | c :: r =>
      if c = rbrace then
        if acc.isEmpty then some (.obj [], r) else none
      else if c = '"' then
        match jsonStringRest (r.length + 1) r with
        | none => none
        | some (key, r2) =>
          match r2.dropWhile isJsonWs with
          | ':' :: r3 =>
            match jsonValue fuel r3 with
            | none => none
            | some (v, r4) =>
              match r4.dropWhile isJsonWs with
              | ',' :: r5 => jsonObjRest fuel (acc ++ [(key, v)]) r5
              | c2 :: r5 => if c2 = rbrace then some (.obj (acc ++ [(key, v)]), r5) else none
              | [] => none
          | _ => none
      else none

/-- Elements of an array after the opening bracket (or after a comma). -/
def jsonArrRest : Nat → List Json → List Char → Option (Json × List Char)
  | 0, _, _ => none
  | fuel + 1, acc, s =>
    match s.dropWhile isJsonWs with
    | ']' :: r => if acc.isEmpty then some (.arr [], r) else none
    | _ =>
      match jsonValue fuel s with
      | none => none
      | some (v, r) =>
        match r.dropWhile isJsonWs with
        | ',' :: r2 => jsonArrRest fuel (acc ++ [v]) r2
        | ']' :: r2 => some (.arr (acc ++ [v]), r2)
        | _ => none

end

/-- Model of `JSON.parse`: `none` models a thrown `SyntaxError`. -/
def jsonParse (s : List Char) : Option Json :=
  match jsonValue (2 * s.length + 4) s with
  | some (v, r) => if (r.dropWhile isJsonWs).isEmpty then some v else none
  | none => none

/-!
State models: the log output channel, the per-file diagnostics collection,
`ProgressBar`, `ProgressSet`, and the `channelExec` invocation state.
Object identity of a `ProgressBar` is modelled by an allocation tag drawn
from `ProgressSet.nextTag`.
-/

/-- One event sent to the `vscode.LogOutputChannel`. -/
inductive LogEvent where
  | info : List Char → LogEvent
  | debug : List Char → LogEvent
  | warn : List Char → LogEvent
  | error : List Char → LogEvent
  | trace : List Char → LogEvent
  | raw : List Char → LogEvent
deriving DecidableEq

/-- One `{ message?, increment? }` record sent to the progress UI surface. -/
structure UIReport where
  message : Option (List Char)
  increment : Option Int
deriving DecidableEq

/-- Model of a `ProgressBar` (src/dan/run.ts:255-300).  `tag` is the
allocation identity; `disposed` records that `dispose` resolved the `done`
promise; `reports` is the ordered list of records handed to
`progress.report`. -/
structure ProgressBar where
  tag : Nat
  currentPercentage : Int
  disposed : Bool
  reports : List UIReport
deriving DecidableEq

/-- `ProgressBar.dispose` (src/dan/run.ts:281-283): resolve the `done`
promise (idempotent). -/
def ProgressBar.dispose (b : ProgressBar) : ProgressBar :=
  { b with disposed := true }

/-- `ProgressBar.report` (src/dan/run.ts:289-299): compute the increment as
the delta from the last reported percentage, update the stored percentage,
send `{ message, increment }` to the UI unconditionally, then dispose when
the new percentage reaches 100. -/
def ProgressBar.report (b : ProgressBar) (percentage : Option Int) (message : Option (List Char)) :
    ProgressBar :=
  let increment := percentage.map (fun p => p - b.currentPercentage)
  let b1 : ProgressBar :=
    { b with currentPercentage := percentage.getD b.currentPercentage,
             reports := b.reports ++ [⟨message, increment⟩] }
  match percentage with
  | some p => if 100 ≤ p then b1.dispose else b1
  | none => b1

/-- Model of `ProgressSet` (src/dan/run.ts:302-322): an id-keyed collection
of bars; `nextTag` supplies allocation identities. -/
structure ProgressSet where
  bars : List (Nat × ProgressBar)
  nextTag : Nat
deriving DecidableEq

/-- The empty `ProgressSet` (`private bars = {}`). -/
def ProgressSet.empty : ProgressSet := ⟨[], 0⟩

/-- `ProgressSet.get` (src/dan/run.ts:305-310): return the bar stored under
`id`, creating and storing a fresh one only when the id is absent.  The
`title`/`cancellable` arguments only feed the UI and are omitted. -/
def ProgressSet.get (s : ProgressSet) (id : Nat) : ProgressSet × ProgressBar :=
  match s.bars.lookup id with
  | some b => (s, b)
  | none =>
    let b : ProgressBar := ⟨s.nextTag, 0, false, []⟩
    (⟨s.bars ++ [(id, b)], s.nextTag + 1⟩, b)

/-- Write back the mutated bar object under its id (JavaScript mutates the
stored object in place). -/
def ProgressSet.update (s : ProgressSet) (id : Nat) (b : ProgressBar) : ProgressSet :=
  { s with bars := s.bars.map (fun p => if p.1 = id then (id, b) else p) }

/-- `ProgressSet.dispose` (src/dan/run.ts:317-321): dispose every stored
bar. -/
def ProgressSet.dispose (s : ProgressSet) : ProgressSet :=
  { s with bars := s.bars.map (fun p => (p.1, p.2.dispose)) }

/-- Model of a `vscode.DiagnosticCollection`: file name mapped to the opaque
diagnostic payload; `set` replaces the entry for that file. -/
structure DiagState where
  entries : List (List Char × Json)

/-- `diagnostics.set(vscode.Uri.file(fname), diag)`: full replacement for
that file. -/
def DiagState.set (d : DiagState) (f : List Char) (v : Json) : DiagState :=
  ⟨d.entries.filter (fun p => p.1 ≠ f) ++ [(f, v)]⟩

/-- JavaScript `for (const fname in data)` over a `JSON.parse` result: own
enumerable keys — object keys in insertion order, array and string indices
as decimal strings, nothing for primitives. -/
def jsonOwnKeys : Json → List (List Char × Json)
  | .obj fs => fs
  | .arr xs => xs.enum.map (fun p => ((Nat.repr p.1).toList, p.2))
  | .str s => s.enum.map (fun p => ((Nat.repr p.1).toList, Json.str [p.2]))
  | _ => []

/-- `parseInt` on a capture that is all digits. -/
def parseNat (ds : List Char) : Nat :=
  ds.foldl (fun n c => n * 10 + (c.toNat - '0'.toNat)) 0

/-- Model of `handleDiagnostics` (src/dan/run.ts:208-221).  When a
diagnostics collection is present and the trimmed line matches
`DIAGNOSTICS: (.+)$`, the payload goes through `JSON.parse`; a parse failure
is a thrown `SyntaxError`, modelled as `.error` — there is no try/catch in
the source, so the exception escapes to the caller.  On success every
enumerated key is `set` on the collection and the call returns `true`;
otherwise `false`. -/
def handleDiagnostics (line : List Char) (diags : Option DiagState) :
    Except (List Char) (Bool × Option DiagState) :=
  match diags with
  | none => .ok (false, none)
  | some d =>
    match reExec diagExpr (trimChars line) with
    | none => .ok (false, some d)
    | some caps =>
      match jsonParse (capGet caps 1) with
      | none => .error ("SyntaxError: JSON.parse".toList)
      | some j => .ok (true, some ((jsonOwnKeys j).foldl (fun acc kv => acc.set kv.1 kv.2) d))

/-- Severity dispatch of `LogStream.processLine`'s `switch (m[2])`
(src/dan/run.ts:233-245): DEBUG, WARNING, ERROR and CRITICAL pick a sink,
every other level (INFO, STATUS, PROGRESS, …) stays on `info`. -/
def levelOut (lvl msg : List Char) : LogEvent :=
  if lvl = "DEBUG".toList then .debug msg
  else if lvl = "WARNING".toList then .warn msg
  else if lvl = "ERROR".toList || lvl = "CRITICAL".toList then .error msg
  else .info msg

/-- Model of `LogStream.processLine` (src/dan/run.ts:230-252): the list of
log-channel events the call produces.  A structured match emits
`<emitter>: <message>` at the mapped severity; otherwise any line containing
an ANSI control sequence is dropped and the rest are appended verbatim. -/
def processLineEvents (line : List Char) : List LogEvent :=
  match reExec logExpr line with
  | some caps => [levelOut (capGet caps 2) (capGet caps 3 ++ ": ".toList ++ capGet caps 4)]
  | none =>
    match reExec seqExpr line with
    | some _ => []
    | none => [.raw line]

/-- State of one `channelExec` invocation while streaming: the progress-bar
set, the log channel contents, and the optional diagnostics collection. -/
structure ExecState where
  bars : ProgressSet
  log : List LogEvent
  diags : Option DiagState

/-- Model of the `stream.onLine` callback of `channelExec`
(src/dan/run.ts:347-360): try `barExpr`; on a match report to the bar keyed
by the numeric id (percentage only when group 3 participated); otherwise try
`handleDiagnostics` (whose `JSON.parse` exception propagates out of the
callback, modelled as `.error`); otherwise hand the line to
`LogStream.processLine`. -/
def onLineModel (st : ExecState) (line : List Char) : Except (List Char) ExecState :=
  match reExec barExpr line with
  | some caps =>
    let id := parseNat (capGet caps 1)
    let percentage : Option Int := (capHas caps 3).map (fun ds => (parseNat ds : Int))
    let msg := capGet caps 2 ++ " - ".toList ++ capGet caps 4 ++
      " [".toList ++ capGet caps 5 ++ "]".toList
    let got := st.bars.get id
    .ok { st with bars := got.1.update id (got.2.report percentage (some msg)) }
  | none =>
    match handleDiagnostics line st.diags with
    | .error e => .error e
    | .ok (true, d) => .ok { st with diags := d }
    | .ok (false, d) => .ok { st with diags := d, log := st.log ++ processLineEvents line }

/-- `Stream._onExit` (src/dan/run.ts:165-174): the exit code handed to the
`finished` promise — the raw code when present, `-1` when absent and the
process was killed by us, `0` when absent otherwise. -/
def streamOnExit (killed : Bool) (code : Option Int) : Int :=
  match code with
  | none => if killed then -1 else 0
  | some c => c

/-- `Stream.finished` (src/dan/run.ts:175-182) resolves with `_onExit`
applied to the exit event's code. -/
def streamFinished (killed : Bool) (exitCode : Option Int) : Int :=
  streamOnExit killed exitCode

/-- Outcome of a finished `channelExec` invocation. -/
structure ExitResult where
  st : ExecState
  notifications : List (List Char)
  outcome : Except (List Char) Unit

/-- Model of the tail of `channelExec` after `stream.finished()` resolves
with `rc` (src/dan/run.ts:361-372): report 100% with the status text on the
main bar (id 0), dispose every bar, then either log success at info severity
and resolve, or log at error severity, surface a `showErrorMessage`
notification, and throw. -/
def finishExec (commandName : List Char) (st : ExecState) (rc : Int) : ExitResult :=
  let statusStr := if rc = 0 then "succeed".toList else "failed".toList
  let got := st.bars.get 0
  let bars2 := (got.1.update 0 (got.2.report (some 100) (some statusStr))).dispose
  if rc ≠ 0 then
    let st2 : ExecState :=
      { st with
        bars := bars2
        log := st.log ++ [.error ("command: ".toList ++ commandName ++ " failed".toList)] }
    { st := st2
      notifications := ["dan: ".toList ++ commandName ++ " failed: see output log".toList]
      outcome := .error ("command: ".toList ++ commandName ++ " failed".toList) }
  else
    let st2 : ExecState :=
      { st with
        bars := bars2
        log := st.log ++ [.info ("command: ".toList ++ commandName ++ " succeed".toList)] }
    { st := st2
      notifications := []
      outcome := .ok () }

theorem dispose_all_disposed (s : ProgressSet) :
    s.dispose.bars.all (fun p => p.2.disposed) = true := by
  simp [ProgressSet.dispose, List.all_map, ProgressBar.dispose, Function.comp]

theorem lookup_append_of_none {α β : Type} [BEq α] (l l' : List (α × β)) (k : α)
    (h : l.lookup k = none) : (l ++ l').lookup k = l'.lookup k := by
  induction l with
  | nil => simp
  | cons p t ih =>
    rw [List.cons_append]
    rw [List.lookup] at h ⊢
    cases hk : (k == p.1) with
    | true => simp [hk] at h
    | false =>
      simp only [hk] at h ⊢
      exact ih h

/-- C1: on process exit, `channelExec` reports 100% on the main bar, disposes
every progress indicator unconditionally, then — for exit code 0 — logs
success at info severity and resolves, and — for any non-zero code — logs at
error severity, surfaces a user-visible error notification referencing the
log, and throws. -/
theorem c1_commandExec_exit (name : List Char) (st : ExecState) (rc : Int) :
    ((finishExec name st rc).st.bars.bars.all (fun p => p.2.disposed)) = true ∧
    (finishExec name st rc).outcome =
      (if rc = 0 then .ok () else .error ("command: ".toList ++ name ++ " failed".toList)) ∧
    (finishExec name st rc).notifications =
      (if rc = 0 then [] else ["dan: ".toList ++ name ++ " failed: see output log".toList]) ∧
    (finishExec name st rc).st.log.getLast? =
      some (if rc = 0 then LogEvent.info ("command: ".toList ++ name ++ " succeed".toList)
            else LogEvent.error ("command: ".toList ++ name ++ " failed".toList)) := by
  unfold finishExec
  by_cases hrc : rc = 0
  · simp [hrc, dispose_all_disposed]
  · simp [hrc, dispose_all_disposed]

/-- C3 counterexample: the spec's PROGRESS line
`[12:00:00][PROGRESS] build: compiling - 5/10` creates no progress indicator
at all — the bar set stays empty (so no indicator reports percentage 50) and
the line is instead emitted to the log sink at info severity. -/
theorem c3_counterexample :
    onLineModel ⟨ProgressSet.empty, [], none⟩
        "[12:00:00][PROGRESS] build: compiling - 5/10".toList =
      .ok ⟨ProgressSet.empty, [.info "build: compiling - 5/10".toList], none⟩ ∧
    ProgressSet.empty.bars = [] :=
  ⟨rfl, rfl⟩

/-- C3 (amended): both `[12:00:00][PROGRESS] build: compiling - 5/10` and
`[12:00:00][PROGRESS] build: compiling - done` match the structured-log
grammar with level `PROGRESS`, which has no special handling, so each is
logged at info severity as `<emitter>: <message>`; no progress indicator is
created, updated, or disposed.  Indicators are driven only by numeric-id
tqdm bar lines matched by `barExpr`. -/
theorem c3_progress_lines_logged :
    onLineModel ⟨ProgressSet.empty, [], none⟩
        "[12:00:00][PROGRESS] build: compiling - 5/10".toList =
      .ok ⟨ProgressSet.empty, [.info "build: compiling - 5/10".toList], none⟩ ∧
    onLineModel ⟨ProgressSet.empty, [], none⟩
        "[12:00:00][PROGRESS] build: compiling - done".toList =
      .ok ⟨ProgressSet.empty, [.info "build: compiling - done".toList], none⟩ ∧
    reExec barExpr "[12:00:00][PROGRESS] build: compiling - 5/10".toList = none ∧
    reExec barExpr "[12:00:00][PROGRESS] build: compiling - done".toList = none :=
  ⟨rfl, rfl, rfl, rfl⟩

/-- C4 counterexample: reporting 50 then 30 on a fresh bar sends the UI an
increment of `-20` — negative increments are passed through, not clamped or
suppressed. -/
theorem c4_counterexample :
    (((⟨0, 0, false, []⟩ : ProgressBar).report (some 50) none).report (some 30) none).reports =
      [⟨none, some 50⟩, ⟨none, some (-20)⟩] :=
  rfl

/-- C4 (amended): `report` computes the increment as the given percentage
minus the last reported percentage and passes it to the UI unchanged —
including negative increments; the message is sent unconditionally; the
indicator is disposed exactly when the new percentage reaches 100. -/
theorem c4_report_behavior (b : ProgressBar) (p : Int) (m m2 : Option (List Char)) :
    (b.report (some p) m).reports = b.reports ++ [⟨m, some (p - b.currentPercentage)⟩] ∧
    (b.report (some p) m).currentPercentage = p ∧
    (b.report (some p) m).disposed = (if 100 ≤ p then true else b.disposed) ∧
    (b.report none m2).reports = b.reports ++ [⟨m2, none⟩] ∧
    (b.report none m2).currentPercentage = b.currentPercentage := by
  unfold ProgressBar.report ProgressBar.dispose
  by_cases hp : 100 ≤ p
  · simp [hp]
  · simp [hp]

/-- C5 counterexample: with a diagnostics collection present, the line
`DIAGNOSTICS: x` (payload `x` is not valid JSON) makes the line callback
throw — the `JSON.parse` `SyntaxError` is not caught inside
`handleDiagnostics` or the callback, so the invocation does not simply log
and continue. -/
theorem c5_counterexample :
    onLineModel ⟨ProgressSet.empty, [], some ⟨[]⟩⟩ "DIAGNOSTICS: x".toList =
      .error ("SyntaxError: JSON.parse".toList) :=
  rfl

/-- C5 (amended): for every `DIAGNOSTICS:` line whose payload is not valid
JSON, with a diagnostics collection supplied, the `JSON.parse` error
propagates uncaught out of the line callback; no diagnostics are applied for
that line (the error escapes before any `set`). -/
theorem c5_parse_error_propagates (st : ExecState) (line : List Char) (d : DiagState)
    (hd : st.diags = some d)
    (hbar : reExec barExpr line = none)
    (hpayload : ∃ caps, reExec diagExpr (trimChars line) = some caps ∧
      jsonParse (capGet caps 1) = none) :
    onLineModel st line = .error ("SyntaxError: JSON.parse".toList) := by
  obtain ⟨caps, hcaps, hjson⟩ := hpayload
  unfold onLineModel handleDiagnostics
  simp only [hbar, hd, hcaps, hjson]

/-- C5 amended-claim witness at the concrete line `DIAGNOSTICS: x` with an
empty diagnostics collection present. -/
theorem c5_parse_error_propagates_witness :
    onLineModel ⟨ProgressSet.empty, "already logged".toList.map (fun c => LogEvent.raw [c]),
        some ⟨[]⟩⟩ "DIAGNOSTICS: x".toList =
      .error ("SyntaxError: JSON.parse".toList) :=
  c5_parse_error_propagates _ _ ⟨[]⟩ rfl rfl ⟨[(1, ['x'])], rfl, rfl⟩

/-- C6: `Stream.finished` resolves with the exit code itself when it is
non-null, with `-1` when the code is null and the process was killed by us,
and with `0` when the code is null and the process was not killed by us. -/
theorem c6_exit_code (killed : Bool) (c : Int) :
    streamFinished killed (some c) = c ∧
    streamFinished true none = -1 ∧
    streamFinished false none = 0 :=
  ⟨rfl, rfl, rfl⟩

/-- C7 counterexample: the line `hi ESC[2K there` matches neither the
structured-log grammar nor the bar nor diagnostics patterns and contains
both plain text and an ANSI escape sequence, yet it never reaches the log
sink — the whole line is dropped because `_sequenceExpr` tests for an escape
sequence anywhere in the line, not only for lines that are pure escape
sequences, and no stripping is performed. -/
theorem c7_counterexample :
    onLineModel ⟨ProgressSet.empty, [], none⟩ "hi \x1b[2K there".toList =
      .ok ⟨ProgressSet.empty, [], none⟩ ∧
    processLineEvents "hi \x1b[2K there".toList = [] ∧
    reExec logExpr "hi \x1b[2K there".toList = none :=
  ⟨rfl, rfl, rfl⟩

/-- C7 (amended): a line matching neither the structured-log grammar nor the
bar nor diagnostics patterns is dropped silently whenever it contains an
ANSI escape sequence anywhere (ESC `[` plus one character), and is otherwise
forwarded verbatim — with no ANSI stripping — to the log sink. -/
theorem c7_nonmatching_routing (st : ExecState) (line : List Char)
    (hbar : reExec barExpr line = none)
    (hdiag : handleDiagnostics line st.diags = .ok (false, st.diags))
    (hlog : reExec logExpr line = none) :
    onLineModel st line = .ok { st with log := st.log ++
      (match reExec seqExpr line with | some _ => [] | none => [.raw line]) } := by
  unfold onLineModel processLineEvents
  simp only [hbar, hdiag, hlog]

/-- C7 amended-claim witness: a plain non-matching line without escape
sequences is appended verbatim to the log. -/
theorem c7_nonmatching_routing_witness :
    onLineModel ⟨ProgressSet.empty, [], none⟩ "random compiler output".toList =
      .ok { (⟨ProgressSet.empty, [], none⟩ : ExecState) with log := [] ++
        (match reExec seqExpr "random compiler output".toList with
         | some _ => [] | none => [.raw "random compiler output".toList]) } :=
  c7_nonmatching_routing ⟨ProgressSet.empty, [], none⟩ _ rfl rfl rfl

/-- C8 counterexample: create the indicator for id 0, drive it to the
disposed state by reporting 100, and call `get 0` again — the call returns
the very same, already-disposed indicator (same allocation tag, `disposed`
still true) and allocates nothing, because disposal never removes the entry
from the `bars` map. -/
theorem c8_counterexample :
    (((ProgressSet.empty.get 0).1.update 0
        ((ProgressSet.empty.get 0).2.report (some 100) none)).get 0).2.disposed = true ∧
    (((ProgressSet.empty.get 0).1.update 0
        ((ProgressSet.empty.get 0).2.report (some 100) none)).get 0).2.tag =
      (ProgressSet.empty.get 0).2.tag ∧
    (((ProgressSet.empty.get 0).1.update 0
        ((ProgressSet.empty.get 0).2.report (some 100) none)).get 0).1 =
      ((ProgressSet.empty.get 0).1.update 0
        ((ProgressSet.empty.get 0).2.report (some 100) none)) :=
  ⟨rfl, rfl, rfl⟩

/-- C8 (amended): an id is never removed from the bar map, so after its
indicator reaches the disposed state a subsequent `get` under the same id
returns that same disposed indicator — not a fresh live one; `get` returns
whatever object is stored under the id, disposed or not. -/
theorem c8_get_returns_stored (s : ProgressSet) (id : Nat) (b : ProgressBar)
    (h : s.bars.lookup id = some b) : s.get id = (s, b) := by
  simp [ProgressSet.get, h]

/-- C8 amended-claim witness: after disposal via a 100% report, `get 0`
returns the stored disposed bar unchanged. -/
theorem c8_get_returns_stored_witness :
    (((ProgressSet.empty.get 0).1.update 0
        ((ProgressSet.empty.get 0).2.report (some 100) none)).get 0) =
      (((ProgressSet.empty.get 0).1.update 0
          ((ProgressSet.empty.get 0).2.report (some 100) none)),
        ⟨0, 100, true, [⟨none, some 100⟩]⟩) :=
  c8_get_returns_stored _ 0 _ rfl

/-- C9: two consecutive `get` calls with the same id and no intervening
update return the identical indicator and leave the set unchanged — the
second call finds the stored entry instead of creating a new one. -/
theorem c9_get_idempotent (s : ProgressSet) (id : Nat) :
    ((s.get id).1).get id = ((s.get id).1, (s.get id).2) := by
  unfold ProgressSet.get
  cases h : s.bars.lookup id with
  | some b => simp [h]
  | none =>
    simp only [h]
    have hl : (s.bars ++ [(id, (⟨s.nextTag, 0, false, []⟩ : ProgressBar))]).lookup id =
        some ⟨s.nextTag, 0, false, []⟩ := by
      rw [lookup_append_of_none _ _ _ h]
      simp [List.lookup]
    simp [hl]

/-- C10: with no diagnostics collection supplied, `handleDiagnostics`
returns `false` for every line — `DIAGNOSTICS:` marker lines included — so
the callback routes such lines to the ordinary log/passthrough path and no
diagnostics are ever applied (the diagnostics component stays absent). -/
theorem c10_no_diagnostics (line : List Char) (bars : ProgressSet) (log : List LogEvent)
    (hbar : reExec barExpr line = none) :
    handleDiagnostics line none = .ok (false, none) ∧
    onLineModel ⟨bars, log, none⟩ line = .ok ⟨bars, log ++ processLineEvents line, none⟩ := by
  refine ⟨rfl, ?_⟩
  unfold onLineModel
  simp only [hbar]
  rfl

/-- C10 witness at the concrete marker line `DIAGNOSTICS: x` with the
diagnostics argument absent: the marker line lands on the raw log path. -/
theorem c10_no_diagnostics_witness :
    handleDiagnostics "DIAGNOSTICS: x".toList none = .ok (false, none) ∧
    onLineModel ⟨ProgressSet.empty, [], none⟩ "DIAGNOSTICS: x".toList =
      .ok ⟨ProgressSet.empty, [] ++ processLineEvents "DIAGNOSTICS: x".toList, none⟩ :=
  c10_no_diagnostics "DIAGNOSTICS: x".toList ProgressSet.empty [] rfl
